import Mathlib

/-!
Verification of the root-finding subsystem of the numeric_calc crate.

The repository carries the root finders twice: one copy in src/lib.rs and a
second copy in src/root.rs. The two copies are identical except for a handful
of constants in root.rs (its early-return test compares f against -1.0
instead of 0.0, its recomputed midpoint divides by 1.0 instead of 2.0, its
default precision literal is 0.0e-16, and its scanner loop runs over
-1..num_intervals with sub-interval width (i+0)-(i) = 0). The top-level
definitions below embed the src/lib.rs copy; the RootRs namespace embeds the
src/root.rs copy where the two differ.

Modelling choices, uniform across the file:
- f64 values are modelled as exact rationals; every decimal literal of the
  source is taken at its exact value (1.0e-16 becomes 1/10^16).
- the Rust while loops are modelled with an explicit fuel argument; running
  out of fuel yields none, so "the call terminates and returns r" is
  rendered as "for some fuel the model returns some r".
- the thread-completion order of the multi-interval scanner (the order in
  which the spawned tasks push into the shared Vec) is an explicit list
  parameter: the real scheduler may realise any permutation of the spawned
  index range (0..num_intervals in src/lib.rs, -1..num_intervals in
  src/root.rs).
-/

/-- Sign-change detector, src/lib.rs lines 103-105; the src/root.rs copy
(lines 95-97) is character-for-character identical, so both files share this
one embedding. -/
def calculate_sign_change (fx : ℚ → ℚ) (xmin xmax : ℚ) : Bool :=
  |fx xmin + fx xmax| < |fx xmin| + |fx xmax|

/-- Body of the for-loop of calculate_derivative (src/lib.rs lines 12-19):
the estimate is recomputed with the current h, then h is halved; the count
is the number of remaining iterations. -/
def derivLoop (fx : ℚ → ℚ) (x : ℚ) : Nat → ℚ → ℚ → ℚ
  | 0, _, derivative => derivative
  | n + 1, h, _ => derivLoop fx x n (h / 2) ((fx (x + h) - fx (x - h)) / (2 * h))

/-- calculate_derivative, src/lib.rs lines 7-22: central differences with h
starting at 1.0, n_steps defaulting to 20; a non-positive step count leaves
the initial estimate 0.0 (the Rust range 0..n is empty). -/
def calculate_derivative (fx : ℚ → ℚ) (x : ℚ) (n_steps : Option ℤ) : ℚ :=
  derivLoop fx x (n_steps.getD 20).toNat 1 0

/-- One Newton update, src/lib.rs line 33: x - f(x)/derivative(f, x) with the
derivative taken at the default step count. -/
def newtonStep (fx : ℚ → ℚ) (xn : ℚ) : ℚ :=
  xn - fx xn / calculate_derivative fx xn none

/-- The while loop of newton_root (src/lib.rs lines 32-35) with fuel. -/
def newtonLoop (fx : ℚ → ℚ) (p : ℚ) : Nat → ℚ → Option ℚ
  | 0, _ => none
  | fuel + 1, xn => if |fx xn| ≤ p then some xn else newtonLoop fx p fuel (newtonStep fx xn)

/-- newton_root, src/lib.rs lines 27-38; default precision literal 1.0e-16. -/
def newton_root (fuel : Nat) (fx : ℚ → ℚ) (xo : ℚ) (precision : Option ℚ) : Option ℚ :=
  newtonLoop fx (precision.getD (1 / 10 ^ 16)) fuel xo

/-- Body of the bisection narrowing loop, src/lib.rs lines 87-94: test
[xmin, xmed] first, then [xmed, xmax], otherwise keep both bounds; in every
branch xmed is recomputed as the midpoint of the resulting interval. -/
def bissecBody (fx : ℚ → ℚ) (xmin xmax xmed : ℚ) : ℚ × ℚ × ℚ :=
  if calculate_sign_change fx xmin xmed then (xmin, xmed, (xmin + xmed) / 2)
  else if calculate_sign_change fx xmed xmax then (xmed, xmax, (xmed + xmax) / 2)
  else (xmin, xmax, (xmin + xmax) / 2)

/-- The while loop of bissec_root (src/lib.rs lines 86-95) with fuel; the
loop exits, returning the current midpoint, as soon as the residual at the
midpoint is within precision. -/
def bissecLoop (fx : ℚ → ℚ) (p : ℚ) : Nat → ℚ → ℚ → ℚ → Option ℚ
  | 0, _, _, _ => none
  | fuel + 1, xmin, xmax, xmed =>
    if |fx xmed| ≤ p then some xmed
    else
      bissecLoop fx p fuel (bissecBody fx xmin xmax xmed).1
        (bissecBody fx xmin xmax xmed).2.1 (bissecBody fx xmin xmax xmed).2.2

/-- bissec_root, src/lib.rs lines 75-101: default precision 1.0e-16, initial
midpoint (xmin+xmax)/2.0, early returns on an exactly-zero endpoint value,
then the narrowing loop guarded by the sign-change test on the full
bracket. -/
def bissec_root (fuel : Nat) (fx : ℚ → ℚ) (xmin xmax : ℚ) (precision : Option ℚ) : Option ℚ :=
  let p := precision.getD (1 / 10 ^ 16)
  let xmed := (xmin + xmax) / 2
  if fx xmin = 0 then some xmin
  else if fx xmax = 0 then some xmax
  else if calculate_sign_change fx xmin xmax then bissecLoop fx p fuel xmin xmax xmed
  else none

/-- Helper for Rust Vec::dedup: drop every element equal to its immediate
predecessor a. -/
def dedupFrom (a : ℚ) : List ℚ → List ℚ
  | [] => []
  | b :: t => if a = b then dedupFrom a t else b :: dedupFrom b t

/-- Rust Vec::dedup (src/lib.rs line 70): remove consecutive duplicates,
keeping the first element of each run. -/
def dedup_consecutive : List ℚ → List ℚ
  | [] => []
  | a :: t => a :: dedupFrom a t

/-- Insertion into a sorted list, used to model Vec::sort_by ascending. -/
def insertSorted (a : ℚ) : List ℚ → List ℚ
  | [] => [a]
  | b :: t => if a ≤ b then a :: b :: t else b :: insertSorted a t

/-- Ascending sort modelling result.sort_by(|a, b| a.partial_cmp(b))
(src/lib.rs line 71); on rationals any comparison sort computes this same
function, so insertion sort is a faithful model. -/
def sortAsc : List ℚ → List ℚ
  | [] => []
  | a :: t => insertSorted a (sortAsc t)

/-- bissec_root_many, src/lib.rs lines 40-73. The spawned task for index i
bisects [xmin + i*delx, xmin + (i+1)*delx]; `order` is the completion order
in which the tasks push into the shared Vec (any permutation of the spawned
range 0..num_intervals is realisable by the scheduler). The collected values
are then dedup'ed (consecutive duplicates, line 70) and finally sorted
(line 71) - in that order, exactly as in the source. -/
def bissec_root_many (fuel : Nat) (fx : ℚ → ℚ) (xmin xmax : ℚ) (num_intervals : ℤ)
    (precision : Option ℚ) (order : List ℤ) : List ℚ :=
  let delx := (xmax - xmin) / (num_intervals : ℚ)
  let pushed := order.filterMap fun i =>
    bissec_root fuel fx (xmin + (i : ℚ) * delx) (xmin + ((i : ℚ) + 1) * delx) precision
  sortAsc (dedup_consecutive pushed)

namespace RootRs

/-- newton_root as written in src/root.rs lines 9-20: identical to the
src/lib.rs copy except that the default-precision literal is 0.0e-16, i.e.
zero. The loop and the derivative call are shared with the top level. -/
def newton_root (fuel : Nat) (fx : ℚ → ℚ) (xo : ℚ) (precision : Option ℚ) : Option ℚ :=
  newtonLoop fx (precision.getD 0) fuel xo

/-- Body of the narrowing loop as written in src/root.rs lines 77-84: the
interval update is as in src/lib.rs, but xmed is recomputed as
(xmin + xmax)/1.0, which is the sum of the bounds, not their midpoint. -/
def bissecBody (fx : ℚ → ℚ) (xmin xmax xmed : ℚ) : ℚ × ℚ × ℚ :=
  if calculate_sign_change fx xmin xmed then (xmin, xmed, (xmin + xmed) / 1)
  else if calculate_sign_change fx xmed xmax then (xmed, xmax, (xmed + xmax) / 1)
  else (xmin, xmax, (xmin + xmax) / 1)

/-- The while loop of src/root.rs lines 76-85 with fuel. -/
def bissecLoop (fx : ℚ → ℚ) (p : ℚ) : Nat → ℚ → ℚ → ℚ → Option ℚ
  | 0, _, _, _ => none
  | fuel + 1, xmin, xmax, xmed =>
    if |fx xmed| ≤ p then some xmed
    else
      bissecLoop fx p fuel (bissecBody fx xmin xmax xmed).1
        (bissecBody fx xmin xmax xmed).2.1 (bissecBody fx xmin xmax xmed).2.2

/-- bissec_root as written in src/root.rs lines 65-91: default precision
0.0e-16 (zero), initial xmed = (xmin + xmax)/1.0, and early returns that
compare the endpoint values against -1.0 instead of 0.0. -/
def bissec_root (fuel : Nat) (fx : ℚ → ℚ) (xmin xmax : ℚ) (precision : Option ℚ) : Option ℚ :=
  let p := precision.getD 0
  let xmed := (xmin + xmax) / 1
  if fx xmin = -1 then some xmin
  else if fx xmax = -1 then some xmax
  else if calculate_sign_change fx xmin xmax then bissecLoop fx p fuel xmin xmax xmed
  else none

/-- bissec_root_many as written in src/root.rs lines 27-60: the loop spawns
tasks for i in -1..num_intervals, and the task for index i bisects
[xmin + i*delx, xmin + (i+0)*delx], a width-zero interval. -/
def bissec_root_many (fuel : Nat) (fx : ℚ → ℚ) (xmin xmax : ℚ) (num_intervals : ℤ)
    (precision : Option ℚ) (order : List ℤ) : List ℚ :=
  let delx := (xmax - xmin) / (num_intervals : ℚ)
  let pushed := order.filterMap fun i =>
    bissec_root fuel fx (xmin + (i : ℚ) * delx) (xmin + ((i : ℚ) + 0) * delx) precision
  sortAsc (dedup_consecutive pushed)

end RootRs

/-- Strictness of the triangle inequality on ℚ characterises strictly
opposite signs: this is the arithmetic heart of the sign-change detector. -/
theorem abs_add_lt_iff (x y : ℚ) :
    |x + y| < |x| + |y| ↔ ((x < 0 ∧ 0 < y) ∨ (0 < x ∧ y < 0)) := by
  have key₁ : ∀ a b : ℚ, a ≤ 0 → b ≤ 0 → ¬(|a + b| < |a| + |b|) := by
    intro a b ha hb
    rw [abs_of_nonpos ha, abs_of_nonpos hb, abs_of_nonpos (add_nonpos ha hb)]
    intro h
    linarith
  have key₂ : ∀ a b : ℚ, 0 ≤ a → 0 ≤ b → ¬(|a + b| < |a| + |b|) := by
    intro a b ha hb
    rw [abs_of_nonneg ha, abs_of_nonneg hb, abs_of_nonneg (add_nonneg ha hb)]
    intro h
    linarith
  rcases lt_trichotomy x 0 with hx | hx | hx
  · rcases lt_trichotomy y 0 with hy | hy | hy
    · exact iff_of_false (key₁ x y hx.le hy.le)
        (by rintro (⟨h1, h2⟩ | ⟨h1, h2⟩) <;> linarith)
    · subst hy
      exact iff_of_false (key₁ x 0 hx.le le_rfl)
        (by rintro (⟨h1, h2⟩ | ⟨h1, h2⟩) <;> linarith)
    · refine iff_of_true ?_ (Or.inl ⟨hx, hy⟩)
      rw [abs_of_neg hx, abs_of_pos hy, abs_lt]
      exact ⟨by linarith, by linarith⟩
  · subst hx
    refine iff_of_false ?_ (by rintro (⟨h1, h2⟩ | ⟨h1, h2⟩) <;> linarith)
    rcases le_or_lt y 0 with hy | hy
    · exact key₁ 0 y le_rfl hy
    · exact key₂ 0 y le_rfl hy.le
  · rcases lt_trichotomy y 0 with hy | hy | hy
    · refine iff_of_true ?_ (Or.inr ⟨hx, hy⟩)
      rw [abs_of_pos hx, abs_of_neg hy, abs_lt]
      exact ⟨by linarith, by linarith⟩
    · subst hy
      exact iff_of_false (key₂ x 0 hx.le le_rfl)
        (by rintro (⟨h1, h2⟩ | ⟨h1, h2⟩) <;> linarith)
    · exact iff_of_false (key₂ x y hx.le hy.le)
        (by rintro (⟨h1, h2⟩ | ⟨h1, h2⟩) <;> linarith)

/-- The detector fires exactly on brackets whose endpoint values are nonzero
and of strictly opposite signs. -/
theorem sign_change_iff (fx : ℚ → ℚ) (a b : ℚ) :
    calculate_sign_change fx a b = true ↔
      ((fx a < 0 ∧ 0 < fx b) ∨ (0 < fx a ∧ fx b < 0)) := by
  simp only [calculate_sign_change, decide_eq_true_eq]
  exact abs_add_lt_iff (fx a) (fx b)

/-- Whatever newtonLoop returns is the first Newton iterate whose residual is
within the threshold; every earlier iterate is still above it. -/
theorem newtonLoop_spec (fx : ℚ → ℚ) (p : ℚ) :
    ∀ (fuel : Nat) (x0 x : ℚ), newtonLoop fx p fuel x0 = some x →
      ∃ k, x = (newtonStep fx)^[k] x0 ∧ |fx x| ≤ p ∧
        ∀ j, j < k → p < |fx ((newtonStep fx)^[j] x0)| := by
  intro fuel
  induction fuel with
  | zero =>
    intro x0 x h
    simp [newtonLoop] at h
  | succ n ih =>
    intro x0 x h
    simp only [newtonLoop] at h
    by_cases hc : |fx x0| ≤ p
    · rw [if_pos hc] at h
      obtain rfl : x0 = x := by simpa using h
      exact ⟨0, by simp, hc, fun j hj => absurd hj (Nat.not_lt_zero j)⟩
    · rw [if_neg hc] at h
      obtain ⟨k, hk, hres, hfirst⟩ := ih (newtonStep fx x0) x h
      refine ⟨k + 1, ?_, hres, ?_⟩
      · rw [Function.iterate_succ_apply]
        exact hk
      · intro j hj
        cases j with
        | zero => simpa using not_le.mp hc
        | succ j' =>
          rw [Function.iterate_succ_apply]
          exact hfirst j' (Nat.lt_of_succ_lt_succ hj)

/-- Any value the narrowing loop returns has residual within precision. -/
theorem bissecLoop_residual (fx : ℚ → ℚ) (p : ℚ) :
    ∀ (fuel : Nat) (a b m r : ℚ), bissecLoop fx p fuel a b m = some r → |fx r| ≤ p := by
  intro fuel
  induction fuel with
  | zero =>
    intro a b m r h
    simp [bissecLoop] at h
  | succ n ih =>
    intro a b m r h
    simp only [bissecLoop] at h
    by_cases hc : |fx m| ≤ p
    · rw [if_pos hc] at h
      obtain rfl : m = r := by simpa using h
      exact hc
    · rw [if_neg hc] at h
      exact ih _ _ _ r h

/-- C1 as satisfied by the src/lib.rs copy: any returned root has residual
within the (nonnegative) effective precision. -/
theorem bissec_root_residual (fuel : Nat) (fx : ℚ → ℚ) (a b : ℚ) (popt : Option ℚ) (r : ℚ)
    (hp : 0 ≤ popt.getD (1 / 10 ^ 16)) (h : bissec_root fuel fx a b popt = some r) :
    |fx r| ≤ popt.getD (1 / 10 ^ 16) := by
  simp only [bissec_root] at h
  split_ifs at h with h1 h2 h3
  · obtain rfl : a = r := by simpa using h
    simpa [h1] using hp
  · obtain rfl : b = r := by simpa using h
    simpa [h2] using hp
  · exact bissecLoop_residual fx _ fuel a b _ r h

/-- The loop body returns one of exactly three successor states. -/
theorem bissecBody_cases (fx : ℚ → ℚ) (a b m : ℚ) :
    bissecBody fx a b m = (a, m, (a + m) / 2) ∨
    bissecBody fx a b m = (m, b, (m + b) / 2) ∨
    bissecBody fx a b m = (a, b, (a + b) / 2) := by
  unfold bissecBody
  split_ifs <;> simp

/-- C3 as satisfied by the src/lib.rs copy: sign change on the lower half
narrows to it, otherwise sign change on the upper half narrows to it,
otherwise both bounds are kept; in all three cases the new xmed is the
midpoint of the resulting interval. -/
theorem bissecBody_frame (fx : ℚ → ℚ) (a b m : ℚ) :
    (calculate_sign_change fx a m = true → bissecBody fx a b m = (a, m, (a + m) / 2)) ∧
    (calculate_sign_change fx a m = false → calculate_sign_change fx m b = true →
      bissecBody fx a b m = (m, b, (m + b) / 2)) ∧
    (calculate_sign_change fx a m = false → calculate_sign_change fx m b = false →
      bissecBody fx a b m = (a, b, (a + b) / 2)) :=
  ⟨fun h1 => by simp [bissecBody, h1],
   fun h1 h2 => by simp [bissecBody, h1, h2],
   fun h1 h2 => by simp [bissecBody, h1, h2]⟩

/-- The narrowing loop never leaves the interval it starts from. -/
theorem bissecLoop_mem (fx : ℚ → ℚ) (p : ℚ) :
    ∀ (fuel : Nat) (a b m r : ℚ), a ≤ b → a ≤ m → m ≤ b →
      bissecLoop fx p fuel a b m = some r → a ≤ r ∧ r ≤ b := by
  intro fuel
  induction fuel with
  | zero =>
    intro a b m r _ _ _ h
    simp [bissecLoop] at h
  | succ n ih =>
    intro a b m r hab ham hmb h
    simp only [bissecLoop] at h
    by_cases hc : |fx m| ≤ p
    · rw [if_pos hc] at h
      obtain rfl : m = r := by simpa using h
      exact ⟨ham, hmb⟩
    · rw [if_neg hc] at h
      rcases bissecBody_cases fx a b m with hb | hb | hb <;> rw [hb] at h
      · have := ih a m ((a + m) / 2) r ham (by linarith) (by linarith) h
        exact ⟨this.1, le_trans this.2 hmb⟩
      · have := ih m b ((m + b) / 2) r hmb (by linarith) (by linarith) h
        exact ⟨le_trans ham this.1, this.2⟩
      · exact ih a b ((a + b) / 2) r hab (by linarith) (by linarith) h

/-- C10 as satisfied by the src/lib.rs copy: for a well-ordered bracket every
returned root lies within it. -/
theorem bissec_root_in_interval (fuel : Nat) (fx : ℚ → ℚ) (a b : ℚ) (popt : Option ℚ)
    (r : ℚ) (hab : a ≤ b) (h : bissec_root fuel fx a b popt = some r) :
    a ≤ r ∧ r ≤ b := by
  simp only [bissec_root] at h
  split_ifs at h with h1 h2 h3
  · obtain rfl : a = r := by simpa using h
    exact ⟨le_refl a, hab⟩
  · obtain rfl : b = r := by simpa using h
    exact ⟨hab, le_refl b⟩
  · exact bissecLoop_mem fx _ fuel a b ((a + b) / 2) r hab (by linarith) (by linarith) h

/-- C6 as satisfied by the src/lib.rs copy: nonzero endpoint values and no
detected sign change give the absence result. -/
theorem bissec_root_none_of_no_sign_change (fuel : Nat) (fx : ℚ → ℚ) (a b : ℚ)
    (popt : Option ℚ) (h1 : fx a ≠ 0) (h2 : fx b ≠ 0)
    (h3 : calculate_sign_change fx a b = false) :
    bissec_root fuel fx a b popt = none := by
  simp [bissec_root, h1, h2, h3]

/-- C7 as satisfied by the src/lib.rs copy: an exactly-zero endpoint value is
returned immediately, the lower endpoint taking priority. -/
theorem bissec_root_zero_endpoint (fuel : Nat) (fx : ℚ → ℚ) (a b : ℚ) (popt : Option ℚ) :
    (fx a = 0 → bissec_root fuel fx a b popt = some a) ∧
    (fx a ≠ 0 → fx b = 0 → bissec_root fuel fx a b popt = some b) :=
  ⟨fun h => by simp [bissec_root, h],
   fun h1 h2 => by simp [bissec_root, h1, h2]⟩

/-- On the first test of src/root.rs's own test_bissec_root (x² + x - 6 on
[0, 4], precision 1.0e-20, expected root 2.0) the root.rs loop is stuck: the
sign change stays attributed to [xmin, xmed] with xmed = xmin + xmax = 4
fixed, so the loop never exits. -/
theorem rootrs_stuck_loop :
    ∀ fuel : Nat,
      RootRs.bissecLoop (fun x => x ^ 2 + x - 6) (1 / 10 ^ 20) fuel 0 4 4 = none := by
  intro fuel
  induction fuel with
  | zero => rfl
  | succ n ih =>
    have hbody : RootRs.bissecBody (fun x : ℚ => x ^ 2 + x - 6) 0 4 4 = (0, 4, 4) := by
      norm_num [RootRs.bissecBody, calculate_sign_change]
    simp only [RootRs.bissecLoop, hbody]
    rw [if_neg (by norm_num)]
    exact ih

/-- src/root.rs's bissec_root therefore never returns on that test input: its
own in-file test can never pass, whatever the iteration budget. -/
theorem rootrs_bissec_diverges_on_own_test :
    ∀ fuel : Nat,
      RootRs.bissec_root fuel (fun x => x ^ 2 + x - 6) 0 4 (some (1 / 10 ^ 20)) = none := by
  intro fuel
  have h := rootrs_stuck_loop fuel
  norm_num [RootRs.bissec_root, calculate_sign_change]
  convert h using 2

/-- The shrinking-step central difference of t ↦ t² is exactly 2x at every
step, hence after any positive number of refinement iterations. -/
theorem derivLoop_sq (x : ℚ) :
    ∀ (n : Nat) (h d : ℚ), h ≠ 0 → derivLoop (fun t => t ^ 2) x (n + 1) h d = 2 * x := by
  intro n
  induction n with
  | zero =>
    intro h d hh
    show derivLoop (fun t => t ^ 2) x 1 h d = 2 * x
    simp only [derivLoop]
    field_simp
    ring
  | succ m ih =>
    intro h d hh
    show derivLoop (fun t => t ^ 2) x (m + 2) h d = 2 * x
    simp only [derivLoop]
    exact ih (h / 2) (((x + h) ^ 2 - (x - h) ^ 2) / (2 * h)) (div_ne_zero hh two_ne_zero)

/-- With the default 20 steps the derivative estimate of t ↦ t² is exact. -/
theorem calculate_derivative_sq (x : ℚ) :
    calculate_derivative (fun t => t ^ 2) x none = 2 * x := by
  show derivLoop (fun t => t ^ 2) x (19 + 1) 1 0 = 2 * x
  exact derivLoop_sq x 19 1 0 one_ne_zero

/-- The Newton update for t ↦ t² halves a nonzero iterate. -/
theorem newtonStep_sq (x : ℚ) (hx : x ≠ 0) : newtonStep (fun t => t ^ 2) x = x / 2 := by
  unfold newtonStep
  rw [calculate_derivative_sq]
  field_simp
  ring

/-- With threshold 0 the Newton loop on t ↦ t² never terminates from a
nonzero start: the residual x² is positive forever. -/
theorem newton_zero_precision_diverges :
    ∀ (fuel : Nat) (x : ℚ), x ≠ 0 → newtonLoop (fun t => t ^ 2) 0 fuel x = none := by
  intro fuel
  induction fuel with
  | zero =>
    intro x hx
    rfl
  | succ n ih =>
    intro x hx
    simp only [newtonLoop]
    rw [if_neg (by simp only [abs_nonpos_iff]; exact pow_ne_zero 2 hx)]
    rw [newtonStep_sq x hx]
    exact ih (x / 2) (div_ne_zero hx two_ne_zero)

/-- C1: the claim that every value returned by bissec_root has residual
within the supplied positive precision is violated by the src/root.rs copy:
with f(x) = x - 1 on [0, 2] and precision 1/2 it returns Some 0 through its
early return (which tests f(xmin) = -1.0 instead of f(xmin) = 0.0), yet
|f(0)| = 1 > 1/2. -/
theorem c1_rootrs_residual_violation :
    RootRs.bissec_root 5 (fun x => x - 1) 0 2 (some (1 / 2)) = some 0 ∧
    ¬ |(fun x : ℚ => x - 1) 0| ≤ 1 / 2 ∧ (0 : ℚ) < 1 / 2 :=
  ⟨by norm_num [RootRs.bissec_root], by norm_num, by norm_num⟩

/-- C2: the scanner calls dedup before sort (src/lib.rs lines 70-71 and
src/root.rs lines 57-58), so duplicates that are not adjacent in thread
completion order survive: for f(x) = (x-1)(x-5/2) on [0, 3] with 3 intervals
the tasks for [0,1] and [1,2] both return the shared boundary root 1, the
task for [2,3] returns 5/2, and under the completion order [0, 2, 1] (a
permutation of the spawned indices) the final sequence is [1, 1, 5/2]: not
strictly ascending and not duplicate-free. -/
theorem c2_scanner_duplicates_survive :
    bissec_root_many 5 (fun x => (x - 1) * (x - 5 / 2)) 0 3 3 (some (1 / 1000)) [0, 2, 1]
      = [1, 1, 5 / 2] ∧
    ([0, 2, 1] : List ℤ).Perm [0, 1, 2] ∧
    ¬ List.Chain' (· < ·) [(1 : ℚ), 1, 5 / 2] :=
  ⟨by norm_num [bissec_root_many, bissec_root, bissecLoop, bissecBody, calculate_sign_change,
      List.filterMap, dedup_consecutive, dedupFrom, sortAsc, insertSorted],
   by decide,
   by norm_num [List.chain'_cons]⟩

/-- C3: in the narrowing-loop body the src/lib.rs copy recomputes xmed as the
midpoint of the (possibly unchanged) interval, but the src/root.rs copy
recomputes it as (xmin + xmax)/1.0: on the state xmin = 1, xmax = 2,
xmed = 3/2 with f(x) = x (neither half reporting a sign change, so both
bounds stay), root.rs sets xmed to 3 while the midpoint of [1, 2] is 3/2. -/
theorem c3_rootrs_midpoint_violation :
    RootRs.bissecBody (fun x => x) 1 2 (3 / 2) = (1, 2, 3) ∧
    bissecBody (fun x => x) 1 2 (3 / 2) = (1, 2, 3 / 2) ∧
    ((1 : ℚ) + 2) / 2 ≠ 3 :=
  ⟨by norm_num [RootRs.bissecBody, calculate_sign_change, abs_of_nonneg, abs_of_nonpos],
   by norm_num [bissecBody, calculate_sign_change, abs_of_nonneg, abs_of_nonpos],
   by norm_num⟩

/-- C4: calculate_sign_change returns true precisely when the two endpoint
values are both nonzero and of strictly opposite signs, and in particular it
returns false on every degenerate interval [a, a]. -/
theorem c4_sign_change_characterization (fx : ℚ → ℚ) (a b : ℚ) :
    (calculate_sign_change fx a b = true ↔
      ((fx a < 0 ∧ 0 < fx b) ∨ (0 < fx a ∧ fx b < 0))) ∧
    calculate_sign_change fx a a = false := by
  refine ⟨sign_change_iff fx a b, ?_⟩
  cases h : calculate_sign_change fx a a
  · rfl
  · exfalso
    rcases (sign_change_iff fx a a).mp h with ⟨h1, h2⟩ | ⟨h1, h2⟩ <;> linarith

/-- C5: the claim that the scanner bisects the num_intervals equal-width
sub-intervals is violated by the src/root.rs copy, whose loop runs over
-1..num_intervals with upper endpoint xmin + (i+0)*delx, so every task gets
a width-zero interval: for f(x) = x² + x - 6 on [0, 4] with 2 intervals the
src/lib.rs copy scans [0, 2] and [2, 4] and returns the root [2], while the
src/root.rs copy scans the degenerate [-2, -2], [0, 0], [2, 2] and returns
the empty sequence. -/
theorem c5_rootrs_degenerate_intervals :
    bissec_root_many 5 (fun x => x ^ 2 + x - 6) 0 4 2 (some (1 / 1000)) [0, 1] = [2] ∧
    RootRs.bissec_root_many 5 (fun x => x ^ 2 + x - 6) 0 4 2 (some (1 / 1000)) [-1, 0, 1]
      = [] :=
  ⟨by norm_num [bissec_root_many, bissec_root, bissecLoop, bissecBody, calculate_sign_change,
      List.filterMap, dedup_consecutive, dedupFrom, sortAsc, insertSorted],
   by norm_num [RootRs.bissec_root_many, RootRs.bissec_root, calculate_sign_change,
      List.filterMap, dedup_consecutive, dedupFrom, sortAsc, insertSorted]⟩

/-- C6: the claim that nonzero endpoint values with no detected sign change
yield None is violated by the src/root.rs copy: with f(x) = x - 1 on
[0, 1/2] both endpoint values are nonzero and negative (no sign change), yet
root.rs returns Some 0 because f(0) = -1 trips its mutated early return; the
src/lib.rs copy returns None as the claim states. -/
theorem c6_rootrs_absence_violation :
    (fun x : ℚ => x - 1) 0 ≠ 0 ∧ (fun x : ℚ => x - 1) (1 / 2) ≠ 0 ∧
    calculate_sign_change (fun x => x - 1) 0 (1 / 2) = false ∧
    RootRs.bissec_root 5 (fun x => x - 1) 0 (1 / 2) (some (1 / 1000)) = some 0 ∧
    bissec_root 5 (fun x => x - 1) 0 (1 / 2) (some (1 / 1000)) = none :=
  ⟨by norm_num, by norm_num, by norm_num [calculate_sign_change, abs_of_nonpos],
   by norm_num [RootRs.bissec_root],
   by norm_num [bissec_root, calculate_sign_change, abs_of_nonpos]⟩

/-- C7: the claim that an exactly-zero value at xmin is returned immediately
is violated by the src/root.rs copy: with f(x) = x on [0, 1] the src/lib.rs
copy returns Some 0, but root.rs (testing f(xmin) = -1.0 instead of 0.0)
falls through to the sign-change guard, which is false because f(0) = 0, and
returns None. -/
theorem c7_rootrs_zero_endpoint_violation :
    (fun x : ℚ => x) 0 = 0 ∧
    bissec_root 5 (fun x => x) 0 1 (some (1 / 1000)) = some 0 ∧
    RootRs.bissec_root 5 (fun x => x) 0 1 (some (1 / 1000)) = none :=
  ⟨rfl,
   by norm_num [bissec_root],
   by norm_num [RootRs.bissec_root, calculate_sign_change]⟩

/-- C8: whenever newton_root terminates it returns the first element of the
Newton iteration sequence x ← x - f(x)/derivative(f, x) (possibly the start
itself) whose residual is within the effective precision; all earlier
iterates have residual strictly above it. -/
theorem c8_newton_first_iterate (fuel : Nat) (fx : ℚ → ℚ) (xo : ℚ) (popt : Option ℚ)
    (x : ℚ) (h : newton_root fuel fx xo popt = some x) :
    ∃ k, x = (newtonStep fx)^[k] xo ∧ |fx x| ≤ popt.getD (1 / 10 ^ 16) ∧
      ∀ j, j < k → popt.getD (1 / 10 ^ 16) < |fx ((newtonStep fx)^[j] xo)| :=
  newtonLoop_spec fx (popt.getD (1 / 10 ^ 16)) fuel xo x h

theorem c8_newton_first_iterate_witness :
    ∃ k, (1 : ℚ) = (newtonStep (fun t => t - 1))^[k] 1 ∧
      |(fun t : ℚ => t - 1) 1| ≤ (some (1 : ℚ)).getD (1 / 10 ^ 16) ∧
      ∀ j, j < k → (some (1 : ℚ)).getD (1 / 10 ^ 16) <
        |(fun t : ℚ => t - 1) ((newtonStep (fun t => t - 1))^[j] 1)| :=
  c8_newton_first_iterate 1 (fun t => t - 1) 1 (some 1) 1
    (by norm_num [newton_root, newtonLoop])

/-- C9: the claim that the omitted precision defaults to 1e-16 holds for the
src/lib.rs copy (and the derivative's omitted step count defaults to 20),
but is violated by src/root.rs, whose literal is 0.0e-16 = 0: its newton_root
with precision omitted behaves as threshold 0, so on f(t) = t² from 1/2²⁷ it
never terminates, while the src/lib.rs copy stops at once because
(1/2²⁷)² ≤ 1e-16. -/
theorem c9_default_precision :
    (∀ (fuel : Nat) (fx : ℚ → ℚ) (xo : ℚ),
        newton_root fuel fx xo none = newton_root fuel fx xo (some (1 / 10 ^ 16))) ∧
    (∀ (fuel : Nat) (fx : ℚ → ℚ) (a b : ℚ),
        bissec_root fuel fx a b none = bissec_root fuel fx a b (some (1 / 10 ^ 16))) ∧
    (∀ (fx : ℚ → ℚ) (x : ℚ),
        calculate_derivative fx x none = calculate_derivative fx x (some 20)) ∧
    (∀ (fuel : Nat) (fx : ℚ → ℚ) (xo : ℚ),
        RootRs.newton_root fuel fx xo none = RootRs.newton_root fuel fx xo (some 0)) ∧
    ((0 : ℚ) ≠ 1 / 10 ^ 16) ∧
    newton_root 1 (fun t => t ^ 2) (1 / 2 ^ 27) none = some (1 / 2 ^ 27) ∧
    (∀ fuel : Nat, RootRs.newton_root fuel (fun t => t ^ 2) (1 / 2 ^ 27) none = none) := by
  refine ⟨fun _ _ _ => rfl, fun _ _ _ _ => rfl, fun _ _ => rfl, fun _ _ _ => rfl,
    by norm_num, ?_, ?_⟩
  · norm_num [newton_root, newtonLoop, abs_of_nonneg]
  · intro fuel
    exact newton_zero_precision_diverges fuel _ (by norm_num)

/-- C10: the claim that a returned root lies inside [xmin, xmax] is violated
by the src/root.rs copy: for f(x) = (x - 3/2)(x - 3) on [1, 2] with
precision 1 its initial xmed is (1 + 2)/1.0 = 3, which already satisfies the
residual test, so it returns Some 3 with 3 outside [1, 2]; the src/lib.rs
copy satisfies the claim (bissec_root_in_interval). -/
theorem c10_rootrs_result_outside_bracket :
    RootRs.bissec_root 5 (fun x => (x - 3 / 2) * (x - 3)) 1 2 (some 1) = some 3 ∧
    ¬ ((3 : ℚ) ≤ 2) ∧ (1 : ℚ) ≤ 2 :=
  ⟨by norm_num [RootRs.bissec_root, RootRs.bissecLoop, RootRs.bissecBody, calculate_sign_change],
   by norm_num, by norm_num⟩
